import Mathlib

/-!
# dipscan: resolver, port prober, task expansion and CSV report

A shallow embedding of `src/dipscan.js`.

* Promises are values of `Promise`: pending, fulfilled or rejected, settled at most once.
* The network is a parameter: the outcome of `dns.lookup` per domain, and the list of socket
  events per probe task, in the order they fire.
* `app` starts from the list of domains read from the input file, and the text it writes to the
  output file is the value its promise is fulfilled with.
* A plain JavaScript object is the list of its own properties in creation order (`JsObject`);
  `for ... in` visits the array-index keys in ascending numeric order and then the other keys in
  creation order (`JsObject.keys`).  Property keys are taken to differ from the member names of
  `Object.prototype` (`constructor`, `toString`, ...): the keys of the program are host names,
  dotted-quad addresses and port numbers.
* A port is a natural number; as a property key it is its decimal string.
* A cell of a data row is `none` for the `null` the row is filled with, or `some` text.
* Console output is left out.
-/

namespace Dipscan

/-! ## Constants (lines 8-9) -/

/-- Socket timeout in milliseconds. -/
def TIMEOUT : Nat := 15000

/-- The probed ports, in column order. -/
def PORTS : List Nat := [8091, 8092, 8093, 8094, 8095, 80, 8080]

/-! ## Promises -/

/-- State of a JavaScript promise. -/
inductive Promise (ε α : Type) where
  | pending : Promise ε α
  | fulfilled (value : α) : Promise ε α
  | rejected (reason : ε) : Promise ε α
  deriving DecidableEq, Repr

/-- Calling `resolve(value)`: settles a pending promise, does nothing to a settled one. -/
def Promise.resolve {ε α : Type} (p : Promise ε α) (value : α) : Promise ε α :=
  match p with
  | .pending => .fulfilled value
  | settled => settled

/-- Calling `reject(reason)`: settles a pending promise, does nothing to a settled one. -/
def Promise.reject {ε α : Type} (p : Promise ε α) (reason : ε) : Promise ε α :=
  match p with
  | .pending => .rejected reason
  | settled => settled

/-- The reason of the first rejected promise of a list, if any. -/
def Promise.firstRejection {ε α : Type} : List (Promise ε α) → Option ε
  | [] => none
  | .rejected reason :: _ => some reason
  | _ :: rest => Promise.firstRejection rest

/-- The values of a list of promises when all of them are fulfilled. -/
def Promise.values {ε α : Type} : List (Promise ε α) → Option (List α)
  | [] => some []
  | .fulfilled value :: rest => (Promise.values rest).map (fun vs => value :: vs)
  | _ :: _ => none

/-- The promise `Promise.all(ps)`: rejected once one of `ps` is rejected, fulfilled with the values
in the order of `ps` when all are fulfilled, pending otherwise.  When several are rejected the
reason kept here is the one of the first in list order. -/
def Promise.all {ε α : Type} (ps : List (Promise ε α)) : Promise ε (List α) :=
  match Promise.firstRejection ps with
  | some reason => .rejected reason
  | none =>
    match Promise.values ps with
    | some vs => .fulfilled vs
    | none => .pending

/-- Continuing an async function after `await p`: the body runs on the value of a fulfilled `p`;
a rejected `p` rejects the function (no `try` surrounds any `await` of `app`), and a pending `p`
leaves it pending. -/
def Promise.await {ε α β : Type} (p : Promise ε α) (body : α → Promise ε β) : Promise ε β :=
  match p with
  | .pending => .pending
  | .fulfilled value => body value
  | .rejected reason => .rejected reason

/-! ## Resolver (lines 22-40) -/

/-- The value `get_ip_addresses` resolves with; `addresses` holds the `address` field of each
entry returned by `dns.lookup`. -/
structure Resolved where
  domain_name : String
  addresses : List String
  deriving DecidableEq, Repr

/-- The callback of `dns.lookup` gets either an error or the addresses; `lookup` is that outcome
for `domain_name`. -/
def get_ip_addresses {ε : Type} (lookup : String → Except ε (List String))
    (domain_name : String) : Promise ε Resolved :=
  match lookup domain_name with
  | .error err => Promise.reject .pending err
  | .ok addresses => Promise.resolve .pending { domain_name := domain_name, addresses := addresses }

/-! ## Port prober (lines 44-81) -/

/-- The three events `check_port` listens to. -/
inductive SocketEvent where
  | timeout
  | error
  | connect
  deriving DecidableEq, Repr

/-- The value `check_port` resolves with; `status` is `true` for an open port. -/
structure ProbeResult where
  domain_name : String
  ip : String
  port : Nat
  status : Bool
  deriving DecidableEq, Repr

/-- The listener `check_port` registers for each event, acting on the promise. -/
def check_port_on {ε : Type} (domain_name ip : String) (port : Nat)
    (p : Promise ε ProbeResult) (event : SocketEvent) : Promise ε ProbeResult :=
  match event with
  | .timeout => p.resolve { domain_name := domain_name, ip := ip, port := port, status := false }
  | .error => p.resolve { domain_name := domain_name, ip := ip, port := port, status := false }
  | .connect => p.resolve { domain_name := domain_name, ip := ip, port := port, status := true }

/-- The promise returned by `check_port` after the socket has emitted `events`, in that order.
The calls `setTimeout` and `connect` are taken not to throw: the timeout and the port are in the
ranges they accept, as `TIMEOUT` and the members of `PORTS` are. -/
def check_port {ε : Type} (domain_name ip : String) (port : Nat) (_timeout : Nat)
    (events : List SocketEvent) : Promise ε ProbeResult :=
  events.foldl (check_port_on domain_name ip port) .pending

/-! ## Task expansion (lines 106-125) -/

/-- The arguments of one `check_port` call. -/
structure ProbeTask where
  domain_name : String
  ip : String
  port : Nat
  timeout : Nat
  deriving DecidableEq, Repr

/-- The loop over `PORTS` of lines 121-123, pushing one task per port. -/
def push_port_tasks (ports : List Nat) (tasks : List ProbeTask) (domain_name ip : String) :
    List ProbeTask :=
  ports.foldl
    (fun acc port =>
      acc ++ [{ domain_name := domain_name, ip := ip, port := port, timeout := TIMEOUT }])
    tasks

/-- The loops of lines 108-125 over the resolved entries and their addresses. -/
def port_check_tasks_for (ports : List Nat) (ip_addresses : List Resolved) : List ProbeTask :=
  ip_addresses.foldl
    (fun acc ip_address =>
      ip_address.addresses.foldl
        (fun acc2 ip => push_port_tasks ports acc2 ip_address.domain_name ip) acc)
    []

/-- The task list of `app`: `port_check_tasks_for` at the constant `PORTS`. -/
def port_check_tasks (ip_addresses : List Resolved) : List ProbeTask :=
  port_check_tasks_for PORTS ip_addresses

/-! ## Plain objects and their key order -/

/-- A plain object: its own enumerable properties, in creation order. -/
abbrev JsObject (α : Type) := List (String × α)

/-- The property read `o[key]`; `none` is `undefined`. -/
def JsObject.get? {α : Type} (o : JsObject α) (key : String) : Option α :=
  match o with
  | [] => none
  | (k, v) :: rest => if k = key then some v else JsObject.get? rest key

/-- The assignment `o[key] = value`: an existing property keeps its place, a new one is created
last. -/
def JsObject.set {α : Type} (o : JsObject α) (key : String) (value : α) : JsObject α :=
  match o with
  | [] => [(key, value)]
  | (k, v) :: rest => if k = key then (k, value) :: rest else (k, v) :: JsObject.set rest key value

/-- Value of a decimal digit character. -/
def digitValue (c : Char) : Nat := c.toNat - 48

/-- Value of a list of decimal digit characters. -/
def decVal (cs : List Char) : Nat := cs.foldl (fun acc c => 10 * acc + digitValue c) 0

/-- The call `parseInt(s)` on a string without leading blanks, sign or radix mark: the value of
the longest run of decimal digits at its start, `none` (NaN) when there is none. -/
def parseInt (s : String) : Option Nat :=
  match s.toList.takeWhile Char.isDigit with
  | [] => none
  | ds => some (decVal ds)

/-- The array index a property key stands for: a key is an array index when it is the canonical
decimal string of a number below `2^32 - 1`. -/
def arrayIndex? (key : String) : Option Nat :=
  match parseInt key with
  | none => none
  | some n => if n < 2 ^ 32 - 1 ∧ Nat.repr n = key then some n else none

/-- The keys visited by `for (const key in o)`: array indices ascending, then the other keys in
creation order. -/
def JsObject.keys {α : Type} (o : JsObject α) : List String :=
  ((o.filterMap (fun kv => arrayIndex? kv.1)).insertionSort (· ≤ ·)).map Nat.repr
    ++ (o.filter (fun kv => (arrayIndex? kv.1).isNone)).map Prod.fst

/-! ## Report builder (lines 139-212) -/

/-- The object `csv.domain_names`: domain name, then address, then port key, to status. -/
abbrev DomainNames := JsObject (JsObject (JsObject Bool))

/-- Lines 171-173: one result recorded at `[domain_name][ip][port]`. -/
def record (domain_names : DomainNames) (r : ProbeResult) : DomainNames :=
  let dn_obj := (domain_names.get? r.domain_name).getD []
  let ports_obj := (dn_obj.get? r.ip).getD []
  domain_names.set r.domain_name (dn_obj.set r.ip (ports_obj.set (Nat.repr r.port) r.status))

/-- The loop of lines 159-174 over the probe results, from the empty object. -/
def build (check_port_results : List ProbeResult) : DomainNames :=
  check_port_results.foldl record []

/-- Lines 148-153: the column names. -/
def columns (ports : List Nat) : List String :=
  ports.foldl (fun acc port => acc ++ [":" ++ Nat.repr port]) ["DomainName", "IP"]

/-- The call `ports.indexOf(port_number)`: position of the first occurrence, `-1` when absent
(also for NaN). -/
def indexOf (ports : List Nat) (port_number : Option Nat) : Int :=
  match port_number with
  | none => -1
  | some n => if n ∈ ports then (ports.indexOf n : Int) else -1

/-- Line 207 run for one key of `ports_obj`. -/
def set_port_cell (ports : List Nat) (ports_obj : JsObject Bool) (row : List (Option String))
    (port_key : String) : List (Option String) :=
  let port_number := parseInt port_key
  let port_status := (ports_obj.get? port_key).getD false
  let port_index := indexOf ports port_number
  row.set (2 + port_index).toNat (some (if port_status then "OK" else "-"))

/-- Lines 197-208: the row of one (domain, address) pair.  The written positions are below the
length of the row, so no assignment extends it. -/
def csv_data_row (ports : List Nat) (domain_name_key ip_key : String)
    (ports_obj : JsObject Bool) : List (Option String) :=
  let row := List.replicate (columns ports).length (none : Option String)
  let row := row.set 0 (some domain_name_key)
  let row := row.set 1 (some ip_key)
  ports_obj.keys.foldl (set_port_cell ports ports_obj) row

/-- The template literal of lines 187 and 210 applied to a cell: `null` prints as `null`. -/
def quoteCell (cell : Option String) : String :=
  "\"" ++ cell.getD "null" ++ "\""

/-- One output line: quoted cells joined by commas, then CRLF. -/
def csv_line (cells : List (Option String)) : String :=
  ",".intercalate (cells.map quoteCell) ++ "\r\n"

/-- Lines 183-212: the text written to the output file. -/
def csv_text_of (ports : List Nat) (domain_names : DomainNames) : String :=
  let csv_text := "" ++ csv_line ((columns ports).map some)
  domain_names.keys.foldl
    (fun text domain_name_key =>
      let dn_obj := (domain_names.get? domain_name_key).getD []
      dn_obj.keys.foldl
        (fun text2 ip_key =>
          let ports_obj := (dn_obj.get? ip_key).getD []
          text2 ++ csv_line (csv_data_row ports domain_name_key ip_key ports_obj))
        text)
    csv_text

/-- Build then serialize, for a port list and the probe results. -/
def report (ports : List Nat) (check_port_results : List ProbeResult) : String :=
  csv_text_of ports (build check_port_results)

/-! ## The application (lines 83-221) -/

/-- The function `app` from the list of domains on: `lookup` is the outcome of `dns.lookup` per
domain, `events i` the events of the socket of the task at position `i`.  The result is the
promise of `app`, fulfilled with the text written to the output file. -/
def app {ε : Type} (lookup : String → Except ε (List String)) (events : Nat → List SocketEvent)
    (domains : List String) : Promise ε String :=
  Promise.await (Promise.all (domains.map (get_ip_addresses lookup))) fun ip_addresses =>
    let tasks := port_check_tasks ip_addresses
    let promises := tasks.enum.map fun it =>
      check_port it.2.domain_name it.2.ip it.2.port it.2.timeout (events it.1)
    Promise.await (Promise.all promises) fun check_port_results =>
      .fulfilled (report PORTS check_port_results)

/-! ## Views used to state the properties -/

/-- The object stored under a domain name (`dn_obj`), empty when there is none. -/
def dn_obj_of (domain_names : DomainNames) (d : String) : JsObject (JsObject Bool) :=
  (domain_names.get? d).getD []

/-- The object of port statuses stored under a (domain, address) pair (`ports_obj`). -/
def ports_obj_of (domain_names : DomainNames) (d ip : String) : JsObject Bool :=
  ((dn_obj_of domain_names d).get? ip).getD []

/-- The (domain, address) pairs in the order the serializer visits them. -/
def row_keys (domain_names : DomainNames) : List (String × String) :=
  domain_names.keys.flatMap fun d => ((dn_obj_of domain_names d).keys).map fun ip => (d, ip)

/-- The data row the serializer emits for a (domain, address) pair. -/
def row_of (ports : List Nat) (results : List ProbeResult) (d ip : String) :
    List (Option String) :=
  csv_data_row ports d ip (ports_obj_of (build results) d ip)

/-- The data rows of the report, in output order. -/
def data_rows (ports : List Nat) (results : List ProbeResult) : List (List (Option String)) :=
  (row_keys (build results)).map fun k => row_of ports results k.1 k.2

/-- The status recorded in the table for a (domain, address, port) triple. -/
def status_of (domain_names : DomainNames) (d ip : String) (port : Nat) : Option Bool :=
  (ports_obj_of domain_names d ip).get? (Nat.repr port)

theorem digitChar_isDigit (m : Nat) (h : m < 10) : (Nat.digitChar m).isDigit = true := by
  interval_cases m <;> decide

theorem digitValue_digitChar (m : Nat) (h : m < 10) : digitValue (Nat.digitChar m) = m := by
  interval_cases m <;> decide

theorem decVal_append_singleton (cs : List Char) (c : Char) :
    decVal (cs ++ [c]) = 10 * decVal cs + digitValue c := by
  simp [decVal, List.foldl_append]

theorem toDigitsCore_spec (fuel : Nat) : ∀ (n : Nat) (ds : List Char), n < fuel →
    ∃ L : List Char, Nat.toDigitsCore 10 fuel n ds = L ++ ds ∧ L ≠ [] ∧
      (∀ c ∈ L, c.isDigit = true) ∧ decVal L = n := by
  induction fuel with
  | zero => intro n ds h; omega
  | succ fuel ih =>
    intro n ds h
    unfold Nat.toDigitsCore
    by_cases h0 : n / 10 = 0
    · refine ⟨[Nat.digitChar (n % 10)], ?_, by simp, ?_, ?_⟩
      · simp [h0]
      · intro c hc
        simp only [List.mem_singleton] at hc
        subst hc
        exact digitChar_isDigit _ (Nat.mod_lt _ (by decide))
      · have : decVal [Nat.digitChar (n % 10)] = digitValue (Nat.digitChar (n % 10)) := by
          simp [decVal]
        rw [this, digitValue_digitChar _ (Nat.mod_lt _ (by decide))]
        omega
    · have hlt : n / 10 < fuel := by omega
      obtain ⟨L, hL, hne, hdig, hval⟩ := ih (n / 10) (Nat.digitChar (n % 10) :: ds) hlt
      refine ⟨L ++ [Nat.digitChar (n % 10)], ?_, by simp, ?_, ?_⟩
      · simp [h0, hL]
      · intro c hc
        rcases List.mem_append.1 hc with hc | hc
        · exact hdig c hc
        · simp only [List.mem_singleton] at hc
          subst hc
          exact digitChar_isDigit _ (Nat.mod_lt _ (by decide))
      · rw [decVal_append_singleton, hval, digitValue_digitChar _ (Nat.mod_lt _ (by decide))]
        omega

theorem repr_toList_spec (n : Nat) :
    (Nat.repr n).toList ≠ [] ∧ (∀ c ∈ (Nat.repr n).toList, c.isDigit = true) ∧
      decVal (Nat.repr n).toList = n := by
  obtain ⟨L, hL, hne, hdig, hval⟩ := toDigitsCore_spec (n + 1) n [] (Nat.lt_succ_self n)
  have : (Nat.repr n).toList = L := by
    simp [Nat.repr, Nat.toDigits, hL, List.asString]
  rw [this]
  exact ⟨hne, hdig, hval⟩

theorem parseInt_repr (n : Nat) : parseInt (Nat.repr n) = some n := by
  obtain ⟨hne, hdig, hval⟩ := repr_toList_spec n
  have htw : (Nat.repr n).toList.takeWhile Char.isDigit = (Nat.repr n).toList :=
    List.takeWhile_eq_self_iff.2 hdig
  unfold parseInt
  rw [htw]
  cases hL : (Nat.repr n).toList with
  | nil => exact absurd hL hne
  | cons c cs =>
    simp only
    rw [← hL]
    exact congrArg some hval

theorem arrayIndex?_eq_some {key : String} {n : Nat} (h : arrayIndex? key = some n) :
    Nat.repr n = key := by
  unfold arrayIndex? at h
  cases hp : parseInt key with
  | none => simp [hp] at h
  | some m =>
    simp only [hp] at h
    split at h
    · rename_i hc
      cases h
      exact hc.2
    · cases h

/-! ## Plain objects -/

theorem get?_set {α : Type} (o : JsObject α) (k k2 : String) (v : α) :
    (JsObject.set o k v).get? k2 = if k = k2 then some v else o.get? k2 := by
  induction o with
  | nil => simp [JsObject.set, JsObject.get?]
  | cons kv rest ih =>
    obtain ⟨a, b⟩ := kv
    by_cases hak : a = k
    · subst hak
      by_cases h2 : a = k2 <;> simp [JsObject.set, JsObject.get?, h2]
    · by_cases h2 : a = k2
      · subst h2
        simp [JsObject.set, JsObject.get?, hak, Ne.symm hak]
      · simp [JsObject.set, JsObject.get?, hak, h2, ih]

theorem get?_eq_none_iff {α : Type} (o : JsObject α) (k : String) :
    o.get? k = none ↔ k ∉ o.map Prod.fst := by
  induction o with
  | nil => simp [JsObject.get?]
  | cons kv rest ih =>
    obtain ⟨a, b⟩ := kv
    by_cases hak : a = k
    · simp [JsObject.get?, hak]
    · simp [JsObject.get?, hak, ih, Ne.symm hak]

theorem map_fst_set {α : Type} (o : JsObject α) (k : String) (v : α) :
    (JsObject.set o k v).map Prod.fst =
      if k ∈ o.map Prod.fst then o.map Prod.fst else o.map Prod.fst ++ [k] := by
  induction o with
  | nil => simp [JsObject.set]
  | cons kv rest ih =>
    obtain ⟨a, b⟩ := kv
    by_cases hak : a = k
    · simp [JsObject.set, hak]
    · have hka : ¬ k = a := Ne.symm hak
      by_cases hmem : k ∈ rest.map Prod.fst
      · rw [if_pos hmem] at ih
        have : k ∈ List.map Prod.fst ((a, b) :: rest) := by
          simp only [List.map_cons, List.mem_cons]; exact Or.inr hmem
        rw [if_pos this]
        simp only [JsObject.set, hak, if_false, List.map_cons, ih]
      · rw [if_neg hmem] at ih
        have : ¬ k ∈ List.map Prod.fst ((a, b) :: rest) := by
          simp only [List.map_cons, List.mem_cons, not_or]; exact ⟨hka, hmem⟩
        rw [if_neg this]
        simp only [JsObject.set, hak, if_false, List.map_cons, ih, List.cons_append]

theorem mem_map_fst_set {α : Type} (o : JsObject α) (k k2 : String) (v : α) :
    k2 ∈ (JsObject.set o k v).map Prod.fst ↔ k2 = k ∨ k2 ∈ o.map Prod.fst := by
  rw [map_fst_set]
  split
  · rename_i h
    constructor
    · intro h2; exact Or.inr h2
    · rintro (rfl | h2)
      · exact h
      · exact h2
  · simp only [List.mem_append, List.mem_singleton]
    tauto

/-- The keys in creation order, array indices first. -/
theorem keys_perm {α : Type} (o : JsObject α) : (JsObject.keys o).Perm (o.map Prod.fst) := by
  unfold JsObject.keys
  have h1 : (((o.filterMap (fun kv => arrayIndex? kv.1)).insertionSort (· ≤ ·)).map Nat.repr).Perm
      ((o.filter (fun kv => (arrayIndex? kv.1).isSome)).map Prod.fst) := by
    refine ((List.perm_insertionSort _ _).map _).trans ?_
    have : (o.filterMap (fun kv => arrayIndex? kv.1)).map Nat.repr =
        (o.filter (fun kv => (arrayIndex? kv.1).isSome)).map Prod.fst := by
      induction o with
      | nil => rfl
      | cons kv rest ih =>
        cases hk : arrayIndex? kv.1 with
        | none => simp [List.filterMap_cons, List.filter_cons, hk, ih]
        | some n => simp [List.filterMap_cons, List.filter_cons, hk, ih, arrayIndex?_eq_some hk]
    rw [this]
  refine (List.Perm.append h1 (List.Perm.refl _)).trans ?_
  rw [← List.map_append]
  apply List.Perm.map
  have := List.filter_append_perm (fun kv : String × α => (arrayIndex? kv.1).isSome) o
  convert this using 3
  funext kv
  cases arrayIndex? kv.1 <;> simp

theorem mem_keys {α : Type} (o : JsObject α) (k : String) :
    k ∈ JsObject.keys o ↔ k ∈ o.map Prod.fst :=
  (keys_perm o).mem_iff

theorem build_concat (rs : List ProbeResult) (r : ProbeResult) :
    build (rs ++ [r]) = record (build rs) r := by
  simp [build, List.foldl_append]

theorem dn_obj_of_record (dn : DomainNames) (r : ProbeResult) (d : String) :
    dn_obj_of (record dn r) d =
      if r.domain_name = d then
        (dn_obj_of dn d).set r.ip ((ports_obj_of dn d r.ip).set (Nat.repr r.port) r.status)
      else dn_obj_of dn d := by
  unfold dn_obj_of record
  simp only [get?_set]
  split
  · rename_i h
    subst h
    simp [ports_obj_of, dn_obj_of]
  · rfl

theorem ports_obj_of_record (dn : DomainNames) (r : ProbeResult) (d ip : String) :
    ports_obj_of (record dn r) d ip =
      if r.domain_name = d ∧ r.ip = ip then
        (ports_obj_of dn d ip).set (Nat.repr r.port) r.status
      else ports_obj_of dn d ip := by
  unfold ports_obj_of
  rw [dn_obj_of_record]
  by_cases hd : r.domain_name = d
  · by_cases hi : r.ip = ip
    · subst hd; subst hi
      simp [get?_set, ports_obj_of]
    · simp [hd, hi, get?_set]
  · simp [hd]

theorem mem_build_keys (rs : List ProbeResult) (d : String) :
    d ∈ (build rs).map Prod.fst ↔ ∃ r ∈ rs, r.domain_name = d := by
  induction rs using List.reverseRecOn with
  | nil => simp [build]
  | append_singleton rs r ih =>
    rw [build_concat]
    unfold record
    rw [mem_map_fst_set, ih]
    simp only [List.mem_append, List.mem_singleton]
    constructor
    · rintro (h | ⟨x, hx, hd⟩)
      · exact ⟨r, Or.inr rfl, h.symm⟩
      · exact ⟨x, Or.inl hx, hd⟩
    · rintro ⟨x, hx | hx, hd⟩
      · exact Or.inr ⟨x, hx, hd⟩
      · subst hx; exact Or.inl hd.symm

theorem mem_dn_obj_keys (rs : List ProbeResult) (d ip : String) :
    ip ∈ (dn_obj_of (build rs) d).map Prod.fst ↔ ∃ r ∈ rs, r.domain_name = d ∧ r.ip = ip := by
  induction rs using List.reverseRecOn with
  | nil => simp [build, dn_obj_of, JsObject.get?]
  | append_singleton rs r ih =>
    rw [build_concat, dn_obj_of_record]
    by_cases hd : r.domain_name = d
    · rw [if_pos hd, mem_map_fst_set, ih]
      simp only [List.mem_append, List.mem_singleton]
      constructor
      · rintro (h | ⟨x, hx, hxd⟩)
        · exact ⟨r, Or.inr rfl, hd, h.symm⟩
        · exact ⟨x, Or.inl hx, hxd⟩
      · rintro ⟨x, hx | hx, hxd⟩
        · exact Or.inr ⟨x, hx, hxd⟩
        · subst hx; exact Or.inl hxd.2.symm
    · rw [if_neg hd, ih]
      simp only [List.mem_append, List.mem_singleton]
      constructor
      · rintro ⟨x, hx, hxd⟩
        exact ⟨x, Or.inl hx, hxd⟩
      · rintro ⟨x, hx | hx, hxd⟩
        · exact ⟨x, hx, hxd⟩
        · subst hx; exact absurd hxd.1 hd

theorem mem_ports_obj_keys (rs : List ProbeResult) (d ip k : String) :
    k ∈ (ports_obj_of (build rs) d ip).map Prod.fst ↔
      ∃ r ∈ rs, r.domain_name = d ∧ r.ip = ip ∧ Nat.repr r.port = k := by
  induction rs using List.reverseRecOn with
  | nil => simp [build, ports_obj_of, dn_obj_of, JsObject.get?]
  | append_singleton rs r ih =>
    rw [build_concat, ports_obj_of_record]
    by_cases hd : r.domain_name = d ∧ r.ip = ip
    · rw [if_pos hd, mem_map_fst_set, ih]
      simp only [List.mem_append, List.mem_singleton]
      constructor
      · rintro (h | ⟨x, hx, hxd⟩)
        · exact ⟨r, Or.inr rfl, hd.1, hd.2, h.symm⟩
        · exact ⟨x, Or.inl hx, hxd⟩
      · rintro ⟨x, hx | hx, hxd⟩
        · exact Or.inr ⟨x, hx, hxd⟩
        · subst hx; exact Or.inl hxd.2.2.symm
    · rw [if_neg hd, ih]
      simp only [List.mem_append, List.mem_singleton]
      constructor
      · rintro ⟨x, hx, hxd⟩
        exact ⟨x, Or.inl hx, hxd⟩
      · rintro ⟨x, hx | hx, hxd⟩
        · exact ⟨x, hx, hxd⟩
        · subst hx; exact absurd ⟨hxd.1, hxd.2.1⟩ hd

theorem foldl_concat_eq {α β : Type} (f : α → β) (xs : List α) (init : List β) :
    xs.foldl (fun acc x => acc ++ [f x]) init = init ++ xs.map f := by
  induction xs generalizing init with
  | nil => simp
  | cons x xs ih => simp [ih]

theorem columns_eq (ports : List Nat) :
    columns ports = "DomainName" :: "IP" :: ports.map (fun p => ":" ++ Nat.repr p) := by
  unfold columns
  rw [foldl_concat_eq]
  rfl

theorem columns_length (ports : List Nat) : (columns ports).length = 2 + ports.length := by
  rw [columns_eq]
  simp
  omega

/-- The column a key of `ports_obj` is written to. -/
theorem col_repr (ports : List Nat) (q : Nat) :
    (2 + indexOf ports (parseInt (Nat.repr q))).toNat =
      if q ∈ ports then 2 + ports.indexOf q else 1 := by
  rw [parseInt_repr]
  unfold indexOf
  by_cases h : q ∈ ports
  · simp only [h, if_true]
    omega
  · simp only [h, if_false]
    rfl

theorem length_foldl_set_port_cell (ports : List Nat) (po : JsObject Bool) (ks : List String)
    (row : List (Option String)) :
    (ks.foldl (set_port_cell ports po) row).length = row.length := by
  induction ks generalizing row with
  | nil => rfl
  | cons k ks ih => simp [List.foldl_cons, ih, set_port_cell]

theorem getElem?_set_port_cell (ports : List Nat) (po : JsObject Bool) (k : String)
    (row : List (Option String)) (i : Nat) :
    (set_port_cell ports po row k)[i]? =
      if (2 + indexOf ports (parseInt k)).toNat = i then
        (if i < row.length then some (some (if (po.get? k).getD false then "OK" else "-"))
         else none)
      else row[i]? := by
  unfold set_port_cell
  simp only []
  rw [List.getElem?_set]
  by_cases h : (2 + indexOf ports (parseInt k)).toNat = i
  · simp only [h, if_true]
  · simp only [h, if_false]

/-- A cell after the loop over the keys: written by the last key that targets it. -/
theorem getElem?_foldl_set_port_cell (ports : List Nat) (po : JsObject Bool) (ks : List String)
    (row : List (Option String)) (i : Nat) :
    (ks.foldl (set_port_cell ports po) row)[i]? =
      match (ks.filter (fun k => (2 + indexOf ports (parseInt k)).toNat = i)).getLast? with
      | none => row[i]?
      | some k =>
        if i < row.length then some (some (if (po.get? k).getD false then "OK" else "-"))
        else none := by
  induction ks using List.reverseRecOn with
  | nil => rfl
  | append_singleton ks k ih =>
    rw [List.foldl_append, List.filter_append]
    simp only [List.foldl_cons, List.foldl_nil]
    rw [getElem?_set_port_cell, length_foldl_set_port_cell]
    by_cases hk : (2 + indexOf ports (parseInt k)).toNat = i
    · have : List.filter (fun k => decide ((2 + indexOf ports (parseInt k)).toNat = i)) [k] = [k] := by
        simp [List.filter_cons, hk]
      rw [this, List.getLast?_concat, if_pos hk]
    · have : List.filter (fun k => decide ((2 + indexOf ports (parseInt k)).toNat = i)) [k] = [] := by
        simp [List.filter_cons, hk]
      rw [this, List.append_nil, ← ih, if_neg hk]

theorem mem_ports_obj_for_in (rs : List ProbeResult) (d ip k : String)
    (h : k ∈ JsObject.keys (ports_obj_of (build rs) d ip)) :
    ∃ r ∈ rs, r.domain_name = d ∧ r.ip = ip ∧ Nat.repr r.port = k :=
  (mem_ports_obj_keys rs d ip k).1 ((mem_keys _ k).1 h)

theorem one_le_col (ports : List Nat) (k : String) :
    1 ≤ (2 + indexOf ports (parseInt k)).toNat := by
  have : (-1 : Int) ≤ indexOf ports (parseInt k) := by
    unfold indexOf
    split
    · exact le_refl _
    · split
      · omega
      · exact le_refl _
  omega

theorem row_of_cell0 (ports : List Nat) (rs : List ProbeResult) (d ip : String) :
    (row_of ports rs d ip)[0]? = some (some d) := by
  unfold row_of csv_data_row
  simp only []
  rw [getElem?_foldl_set_port_cell]
  have hF : List.filter (fun k => decide ((2 + indexOf ports (parseInt k)).toNat = 0))
      (JsObject.keys (ports_obj_of (build rs) d ip)) = [] := by
    rw [List.filter_eq_nil_iff]
    intro k _
    have := one_le_col ports k
    simp only [decide_eq_true_eq]
    omega
  rw [hF]
  simp only [List.getLast?_nil]
  rw [List.getElem?_set_ne (by decide), List.getElem?_set_self (by simp [columns_length])]

theorem row_of_cell1 (ports : List Nat) (rs : List ProbeResult) (d ip : String)
    (h : ∀ r ∈ rs, r.domain_name = d → r.ip = ip → r.port ∈ ports) :
    (row_of ports rs d ip)[1]? = some (some ip) := by
  unfold row_of csv_data_row
  simp only []
  rw [getElem?_foldl_set_port_cell]
  have hF : List.filter (fun k => decide ((2 + indexOf ports (parseInt k)).toNat = 1))
      (JsObject.keys (ports_obj_of (build rs) d ip)) = [] := by
    rw [List.filter_eq_nil_iff]
    intro k hk
    obtain ⟨r, hr, hd, hi, hrk⟩ := mem_ports_obj_for_in rs d ip k hk
    subst hrk
    rw [col_repr, if_pos (h r hr hd hi)]
    simp only [decide_eq_true_eq]
    omega
  rw [hF]
  simp only [List.getLast?_nil]
  rw [List.getElem?_set_self (by simp [columns_length]; omega)]

/-- The cell of a port of the list, at the column of its first occurrence. -/
theorem row_of_port_cell (ports : List Nat) (rs : List ProbeResult) (d ip : String) (p : Nat)
    (hp : p ∈ ports) :
    (row_of ports rs d ip)[2 + ports.indexOf p]? =
      some ((status_of (build rs) d ip p).map (fun b => if b then "OK" else "-")) := by
  have hidx : ports.indexOf p < ports.length := List.indexOf_lt_length.2 hp
  have hkey : ∀ k ∈ List.filter
      (fun k => decide ((2 + indexOf ports (parseInt k)).toNat = 2 + ports.indexOf p))
      (JsObject.keys (ports_obj_of (build rs) d ip)), k = Nat.repr p := by
    intro k hk
    rw [List.mem_filter] at hk
    obtain ⟨r, _, _, _, hrk⟩ := mem_ports_obj_for_in rs d ip k hk.1
    subst hrk
    have hc := hk.2
    simp only [decide_eq_true_eq] at hc
    rw [col_repr] at hc
    by_cases hq : r.port ∈ ports
    · rw [if_pos hq] at hc
      have : ports.indexOf r.port = ports.indexOf p := by omega
      rw [(List.indexOf_inj hq hp).1 this]
    · rw [if_neg hq] at hc
      omega
  unfold row_of csv_data_row
  simp only []
  rw [getElem?_foldl_set_port_cell]
  cases hF : (List.filter
      (fun k => decide ((2 + indexOf ports (parseInt k)).toNat = 2 + ports.indexOf p))
      (JsObject.keys (ports_obj_of (build rs) d ip))).getLast? with
  | none =>
    simp only []
    rw [List.getLast?_eq_none_iff] at hF
    have hnot : Nat.repr p ∉ (ports_obj_of (build rs) d ip).map Prod.fst := by
      intro hmem
      have h1 : Nat.repr p ∈ JsObject.keys (ports_obj_of (build rs) d ip) :=
        (mem_keys _ _).2 hmem
      have h2 : Nat.repr p ∈ List.filter
          (fun k => decide ((2 + indexOf ports (parseInt k)).toNat = 2 + ports.indexOf p))
          (JsObject.keys (ports_obj_of (build rs) d ip)) := by
        rw [List.mem_filter]
        refine ⟨h1, ?_⟩
        simp only [decide_eq_true_eq]
        rw [col_repr, if_pos hp]
      rw [hF] at h2
      exact absurd h2 (List.not_mem_nil _)
    have hst : status_of (build rs) d ip p = none := (get?_eq_none_iff _ _).2 hnot
    rw [hst]
    rw [List.getElem?_set_ne (by omega), List.getElem?_set_ne (by omega),
      List.getElem?_replicate, if_pos (by rw [columns_length]; omega)]
    rfl
  | some k =>
    simp only []
    have hk := hkey k (List.mem_of_getLast?_eq_some hF)
    subst hk
    rw [if_pos (by simp [columns_length]; omega)]
    have hmem : Nat.repr p ∈ (ports_obj_of (build rs) d ip).map Prod.fst :=
      (mem_keys _ _).1 (List.mem_filter.1 (List.mem_of_getLast?_eq_some hF)).1
    unfold status_of
    cases hg : (ports_obj_of (build rs) d ip).get? (Nat.repr p) with
    | none => exact absurd hmem ((get?_eq_none_iff _ _).1 hg)
    | some b => rfl

theorem mem_row_keys (rs : List ProbeResult) (d ip : String) :
    (d, ip) ∈ row_keys (build rs) ↔ ∃ r ∈ rs, r.domain_name = d ∧ r.ip = ip := by
  unfold row_keys
  rw [List.mem_flatMap]
  constructor
  · rintro ⟨a, _, hmem⟩
    rw [List.mem_map] at hmem
    obtain ⟨b, hb, hab⟩ := hmem
    cases hab
    exact (mem_dn_obj_keys rs d ip).1 ((mem_keys _ _).1 hb)
  · rintro ⟨r, hr, hd, hi⟩
    refine ⟨d, (mem_keys _ _).2 ((mem_build_keys rs d).2 ⟨r, hr, hd⟩), ?_⟩
    rw [List.mem_map]
    exact ⟨ip, (mem_keys _ _).2 ((mem_dn_obj_keys rs d ip).2 ⟨r, hr, hd, hi⟩), rfl⟩

theorem foldl_foldl_append_eq {κ ι : Type} (ks : List κ) (g : κ → List ι)
    (h : κ → ι → String) (init : String) :
    ks.foldl (fun t k => (g k).foldl (fun t2 x => t2 ++ h k x) t) init =
      (ks.flatMap (fun k => (g k).map (h k))).foldl (· ++ ·) init := by
  induction ks generalizing init with
  | nil => rfl
  | cons k ks ih =>
    rw [List.foldl_cons, ih, List.flatMap_cons, List.foldl_append, List.foldl_map]

/-- The text is the header line followed by the lines of the data rows. -/
theorem report_eq (ports : List Nat) (rs : List ProbeResult) :
    report ports rs =
      String.join (csv_line ((columns ports).map some) :: (data_rows ports rs).map csv_line) := by
  unfold report csv_text_of String.join
  simp only []
  rw [foldl_foldl_append_eq (JsObject.keys (build rs))
    (fun d => JsObject.keys ((JsObject.get? (build rs) d).getD []))
    (fun d ip => csv_line (csv_data_row ports d ip
      ((JsObject.get? ((JsObject.get? (build rs) d).getD []) ip).getD [])))]
  rw [List.foldl_cons]
  congr 1
  unfold data_rows row_keys row_of ports_obj_of dn_obj_of
  rw [List.map_map, List.map_flatMap]
  congr 1
  funext d
  rw [List.map_map]
  rfl

/-! ## Order of the results -/

theorem push_port_tasks_eq (ports : List Nat) (tasks : List ProbeTask) (d ip : String) :
    push_port_tasks ports tasks d ip =
      tasks ++ ports.map (fun port =>
        ({ domain_name := d, ip := ip, port := port, timeout := TIMEOUT } : ProbeTask)) := by
  unfold push_port_tasks
  exact foldl_concat_eq _ ports tasks

theorem foldl_append_flatMap {α β : Type} (xs : List α) (f : α → List β) (init : List β) :
    xs.foldl (fun acc x => acc ++ f x) init = init ++ xs.flatMap f := by
  induction xs generalizing init with
  | nil => simp
  | cons x xs ih => simp [ih, List.flatMap_cons]

theorem port_check_tasks_for_eq (ports : List Nat) (ip_addresses : List Resolved) :
    port_check_tasks_for ports ip_addresses =
      ip_addresses.flatMap (fun e => e.addresses.flatMap (fun ip => ports.map (fun port =>
        ({ domain_name := e.domain_name, ip := ip, port := port, timeout := TIMEOUT }
          : ProbeTask)))) := by
  unfold port_check_tasks_for
  simp only [push_port_tasks_eq]
  have h : ∀ (e : Resolved) (acc : List ProbeTask),
      e.addresses.foldl (fun acc2 ip => acc2 ++ ports.map (fun port =>
        ({ domain_name := e.domain_name, ip := ip, port := port, timeout := TIMEOUT }
          : ProbeTask))) acc =
      acc ++ e.addresses.flatMap (fun ip => ports.map (fun port =>
        ({ domain_name := e.domain_name, ip := ip, port := port, timeout := TIMEOUT }
          : ProbeTask))) := fun e acc => foldl_append_flatMap _ _ acc
  simp only [h]
  rw [foldl_append_flatMap]
  rfl

/-- The cell of the port column `j`: the status of `ports[j]` when `j` is the first position of
that port in the list, `null` otherwise. -/
theorem row_of_column (ports : List Nat) (rs : List ProbeResult) (d ip : String) (j : Nat)
    (hj : j < ports.length) :
    (row_of ports rs d ip)[2 + j]? =
      some (if ports.indexOf ports[j] = j then
        (status_of (build rs) d ip ports[j]).map (fun b => if b then "OK" else "-")
      else none) := by
  by_cases hfirst : ports.indexOf ports[j] = j
  · rw [if_pos hfirst]
    have := row_of_port_cell ports rs d ip ports[j] (List.getElem_mem hj)
    rw [hfirst] at this
    exact this
  · rw [if_neg hfirst]
    unfold row_of csv_data_row
    simp only []
    rw [getElem?_foldl_set_port_cell]
    have hF : List.filter (fun k => decide ((2 + indexOf ports (parseInt k)).toNat = 2 + j))
        (JsObject.keys (ports_obj_of (build rs) d ip)) = [] := by
      rw [List.filter_eq_nil_iff]
      intro k hk
      obtain ⟨r, _, _, _, hrk⟩ := mem_ports_obj_for_in rs d ip k hk
      subst hrk
      simp only [decide_eq_true_eq]
      rw [col_repr]
      by_cases hq : r.port ∈ ports
      · rw [if_pos hq]
        intro hc
        have hidx : ports.indexOf r.port = j := by omega
        have hlt : ports.indexOf r.port < ports.length := List.indexOf_lt_length.2 hq
        have hget := List.getElem_indexOf hlt
        apply hfirst
        have hpj : ports[j] = r.port := by
          rw [← hget]
          congr 1
          exact hidx.symm
        rw [hpj]
        exact hidx
      · rw [if_neg hq]
        omega
    rw [hF]
    simp only [List.getLast?_nil]
    rw [List.getElem?_set_ne (by omega), List.getElem?_set_ne (by omega),
      List.getElem?_replicate, if_pos (by rw [columns_length]; omega)]

theorem length_flatMap_of_length_eq {α β : Type} (xs : List α) (f : α → List β) (m : Nat)
    (h : ∀ x ∈ xs, (f x).length = m) : (xs.flatMap f).length = xs.length * m := by
  induction xs with
  | nil => simp
  | cons x xs ih =>
    rw [List.flatMap_cons, List.length_append, h x (List.mem_cons_self _ _),
      ih (fun y hy => h y (List.mem_cons_of_mem _ hy)), List.length_cons]
    ring

theorem foldl_check_port_on_fulfilled {ε : Type} (d ip : String) (port : Nat)
    (events : List SocketEvent) (v : ProbeResult) :
    events.foldl (check_port_on d ip port) (Promise.fulfilled v : Promise ε ProbeResult) =
      Promise.fulfilled v := by
  induction events with
  | nil => rfl
  | cons e es ih =>
    rw [List.foldl_cons]
    cases e <;> exact ih

theorem check_port_cons {ε : Type} (d ip : String) (port timeout : Nat) (first : SocketEvent)
    (later : List SocketEvent) :
    (check_port d ip port timeout (first :: later) : Promise ε ProbeResult) =
      Promise.fulfilled
        { domain_name := d, ip := ip, port := port,
          status := decide (first = SocketEvent.connect) } := by
  unfold check_port
  rw [List.foldl_cons]
  cases first <;> exact foldl_check_port_on_fulfilled _ _ _ _ _

theorem all_eq_fulfilled {ε α : Type} (ps : List (Promise ε α)) (vs : List α)
    (h : Promise.all ps = Promise.fulfilled vs) : Promise.values ps = some vs := by
  unfold Promise.all at h
  cases hr : Promise.firstRejection ps with
  | some reason => rw [hr] at h; cases h
  | none =>
    rw [hr] at h
    cases hv : Promise.values ps with
    | none => rw [hv] at h; cases h
    | some ws =>
      rw [hv] at h
      cases h
      rfl

theorem values_check_port {ε : Type} (events : Nat → List SocketEvent)
    (l : List (Nat × ProbeTask)) :
    ∀ rs : List ProbeResult,
      Promise.values (l.map (fun it =>
        (check_port it.2.domain_name it.2.ip it.2.port it.2.timeout (events it.1)
          : Promise ε ProbeResult))) = some rs →
      rs.map (fun r => (r.domain_name, r.ip, r.port)) =
        l.map (fun it => (it.2.domain_name, it.2.ip, it.2.port)) := by
  induction l with
  | nil =>
    intro rs h
    simp only [List.map_nil, Promise.values] at h
    cases h
    rfl
  | cons it rest ih =>
    intro rs h
    rw [List.map_cons] at h
    cases hev : events it.1 with
    | nil =>
      rw [hev] at h
      simp [check_port, Promise.values] at h
    | cons first later =>
      rw [hev, check_port_cons] at h
      simp only [Promise.values] at h
      cases hrest : Promise.values (rest.map (fun it =>
          (check_port it.2.domain_name it.2.ip it.2.port it.2.timeout (events it.1)
            : Promise ε ProbeResult))) with
      | none => rw [hrest] at h; cases h
      | some ws =>
        rw [hrest] at h
        cases h
        rw [List.map_cons, List.map_cons, ih ws hrest]

/-- The results of a run: `app` is fulfilled with the report of results that hold, for every
task, one result with the domain, address and port of that task. -/
theorem app_fulfilled {ε : Type} (lookup : String → Except ε (List String))
    (events : Nat → List SocketEvent) (domains : List String) (text : String)
    (h : app lookup events domains = Promise.fulfilled text) :
    ∃ (ip_addresses : List Resolved) (rs : List ProbeResult),
      text = report PORTS rs ∧
      rs.map (fun r => (r.domain_name, r.ip, r.port)) =
        (port_check_tasks ip_addresses).map (fun t => (t.domain_name, t.ip, t.port)) := by
  unfold app at h
  cases h1 : Promise.all (domains.map (get_ip_addresses lookup)) with
  | pending => rw [h1] at h; cases h
  | rejected reason => rw [h1] at h; cases h
  | fulfilled ip_addresses =>
    rw [h1] at h
    simp only [Promise.await] at h
    cases h2 : Promise.all ((port_check_tasks ip_addresses).enum.map (fun it =>
        (check_port it.2.domain_name it.2.ip it.2.port it.2.timeout (events it.1)
          : Promise ε ProbeResult))) with
    | pending => rw [h2] at h; cases h
    | rejected reason => rw [h2] at h; cases h
    | fulfilled rs =>
      rw [h2] at h
      simp only [] at h
      cases h
      refine ⟨ip_addresses, rs, rfl, ?_⟩
      rw [values_check_port events _ rs (all_eq_fulfilled _ _ h2)]
      have := List.enum_map_snd (port_check_tasks ip_addresses)
      conv_rhs => rw [← this]
      rw [List.map_map]
      rfl

/-- In a run of `app` every data row is complete: each result port is one of `PORTS`, and each of
the `2 + |PORTS|` cells of each data row holds text, never `null`. -/
theorem app_report_complete {ε : Type} (lookup : String → Except ε (List String))
    (events : Nat → List SocketEvent) (domains : List String) (text : String)
    (h : app lookup events domains = Promise.fulfilled text) :
    ∃ rs : List ProbeResult, text = report PORTS rs ∧ (∀ r ∈ rs, r.port ∈ PORTS) ∧
      ∀ row ∈ data_rows PORTS rs, ∀ j, j < 2 + PORTS.length → ∃ s, row[j]? = some (some s) := by
  obtain ⟨ias, rs, htext, htriples⟩ := app_fulfilled lookup events domains text h
  have htasks := port_check_tasks_for_eq PORTS ias
  have hmem : ∀ (d ip : String) (p : Nat),
      (∃ r ∈ rs, r.domain_name = d ∧ r.ip = ip ∧ r.port = p) ↔
        (∃ e ∈ ias, e.domain_name = d ∧ ip ∈ e.addresses ∧ p ∈ PORTS) := by
    intro d ip p
    have h1 : (∃ r ∈ rs, r.domain_name = d ∧ r.ip = ip ∧ r.port = p) ↔
        (d, ip, p) ∈ rs.map (fun r => (r.domain_name, r.ip, r.port)) := by
      rw [List.mem_map]
      constructor
      · rintro ⟨r, hr, hd, hi, hp⟩
        exact ⟨r, hr, by rw [hd, hi, hp]⟩
      · rintro ⟨r, hr, hx⟩
        simp only [Prod.mk.injEq] at hx
        exact ⟨r, hr, hx.1, hx.2.1, hx.2.2⟩
    rw [h1, htriples]
    unfold port_check_tasks
    rw [htasks]
    simp only [List.mem_map, List.mem_flatMap, Prod.mk.injEq]
    constructor
    · rintro ⟨t, ⟨e, he, a, ha, q, hq, rfl⟩, hd, hi, hp⟩
      simp only at hd hi hp
      subst hd; subst hi; subst hp
      exact ⟨e, he, rfl, ha, hq⟩
    · rintro ⟨e, he, hd, ha, hp⟩
      exact ⟨⟨d, ip, p, TIMEOUT⟩, ⟨e, he, ip, ha, p, hp, by rw [hd]⟩, rfl, rfl, rfl⟩
  have hports : ∀ r ∈ rs, r.port ∈ PORTS := by
    intro r hr
    obtain ⟨e, _, _, _, hp⟩ := (hmem r.domain_name r.ip r.port).1 ⟨r, hr, rfl, rfl, rfl⟩
    exact hp
  refine ⟨rs, htext, hports, ?_⟩
  intro row hrow j hj
  unfold data_rows at hrow
  rw [List.mem_map] at hrow
  obtain ⟨⟨d, ip⟩, hk, hrow⟩ := hrow
  subst hrow
  simp only []
  obtain ⟨r0, hr0, hd0, hi0⟩ := (mem_row_keys rs d ip).1 hk
  match j, hj with
  | 0, _ => exact ⟨d, row_of_cell0 PORTS rs d ip⟩
  | 1, _ => exact ⟨ip, row_of_cell1 PORTS rs d ip (fun r hr _ _ => hports r hr)⟩
  | i + 2, hi =>
    have hi2 : i < PORTS.length := by omega
    have hcol := row_of_column PORTS rs d ip i hi2
    have hnd : PORTS.Nodup := by decide
    rw [if_pos (List.indexOf_getElem hnd i hi2)] at hcol
    obtain ⟨e, he, hed, hea, _⟩ := (hmem r0.domain_name r0.ip r0.port).1 ⟨r0, hr0, rfl, rfl, rfl⟩
    have hex : ∃ r ∈ rs, r.domain_name = d ∧ r.ip = ip ∧ r.port = PORTS[i] := by
      rw [hmem]
      exact ⟨e, he, by rw [hed, hd0], by rw [← hi0]; exact hea, List.getElem_mem hi2⟩
    obtain ⟨r, hr, hrd, hri, hrp⟩ := hex
    have hst : status_of (build rs) d ip PORTS[i] ≠ none := by
      unfold status_of
      rw [Ne, get?_eq_none_iff, not_not, mem_ports_obj_keys]
      exact ⟨r, hr, hrd, hri, by rw [hrp]⟩
    cases hs : status_of (build rs) d ip PORTS[i] with
    | none => exact absurd hs hst
    | some b =>
      rw [hs] at hcol
      refine ⟨if b then "OK" else "-", ?_⟩
      rw [Nat.add_comm i 2, hcol]
      rfl

/-! ## The claims -/

/-- C5: the report is the header line followed by the lines of the data rows; a line is its cells
wrapped in double quotes, joined by commas and ended by CRLF; the header cells are `DomainName`,
`IP` and `:<port>` per port in list order; and the report of the end-to-end scenario is the
expected text. -/
theorem serialization_format (ports : List Nat) (rs : List ProbeResult) :
    report ports rs =
        String.join (csv_line ((columns ports).map some) :: (data_rows ports rs).map csv_line) ∧
      columns ports = "DomainName" :: "IP" :: ports.map (fun p => ":" ++ Nat.repr p) ∧
      (∀ cells : List (Option String),
        csv_line cells =
          ",".intercalate (cells.map (fun c => "\"" ++ c.getD "null" ++ "\"")) ++ "\r\n") ∧
      report [80, 443]
          [⟨"example.com", "93.184.216.34", 80, true⟩,
            ⟨"example.com", "93.184.216.34", 443, false⟩] =
        "\"DomainName\",\"IP\",\":80\",\":443\"\r\n\"example.com\",\"93.184.216.34\",\"OK\",\"-\"\r\n" :=
  ⟨report_eq ports rs, columns_eq ports, fun _ => rfl, by decide⟩

/-- C7: the task list of `app` is the cross product, in nesting order, of the resolved entries,
their addresses and `PORTS`, each task carrying `TIMEOUT`; its length is the sum over the entries
of `|addresses| * |PORTS|`, so an address listed under two domains is probed under each. -/
theorem task_expansion_cross_product (ip_addresses : List Resolved) :
    port_check_tasks ip_addresses =
        ip_addresses.flatMap (fun e => e.addresses.flatMap (fun ip => PORTS.map (fun port =>
          ({ domain_name := e.domain_name, ip := ip, port := port, timeout := TIMEOUT }
            : ProbeTask)))) ∧
      (port_check_tasks ip_addresses).length =
        (ip_addresses.map (fun e => e.addresses.length * PORTS.length)).sum ∧
      (∀ e ∈ ip_addresses, ∀ ip ∈ e.addresses, ∀ port ∈ PORTS,
        ({ domain_name := e.domain_name, ip := ip, port := port, timeout := TIMEOUT }
          : ProbeTask) ∈ port_check_tasks ip_addresses) := by
  have heq := port_check_tasks_for_eq PORTS ip_addresses
  refine ⟨heq, ?_, ?_⟩
  · unfold port_check_tasks
    rw [heq, List.length_flatMap]
    congr 1
    apply List.map_congr_left
    intro e _
    exact length_flatMap_of_length_eq _ _ _ (fun ip _ => List.length_map _ _)
  · intro e he ip hip port hport
    unfold port_check_tasks
    rw [heq]
    simp only [List.mem_flatMap, List.mem_map]
    exact ⟨e, he, ip, hip, port, hport, rfl⟩

/-- A concrete instance: an address shared by two domains is probed under
each of them, seven ports each. -/
theorem task_expansion_cross_product_witness :
    (port_check_tasks [⟨"a.example", ["10.0.0.1"]⟩, ⟨"b.example", ["10.0.0.1"]⟩]).length = 14 ∧
      ({ domain_name := "a.example", ip := "10.0.0.1", port := 80, timeout := TIMEOUT }
          : ProbeTask) ∈
        port_check_tasks [⟨"a.example", ["10.0.0.1"]⟩, ⟨"b.example", ["10.0.0.1"]⟩] ∧
      ({ domain_name := "b.example", ip := "10.0.0.1", port := 80, timeout := TIMEOUT }
          : ProbeTask) ∈
        port_check_tasks [⟨"a.example", ["10.0.0.1"]⟩, ⟨"b.example", ["10.0.0.1"]⟩] :=
  ⟨(task_expansion_cross_product
      [⟨"a.example", ["10.0.0.1"]⟩, ⟨"b.example", ["10.0.0.1"]⟩]).2.1,
    (task_expansion_cross_product
      [⟨"a.example", ["10.0.0.1"]⟩, ⟨"b.example", ["10.0.0.1"]⟩]).2.2
      ⟨"a.example", ["10.0.0.1"]⟩ (by decide) "10.0.0.1" (by decide) 80 (by decide),
    (task_expansion_cross_product
      [⟨"a.example", ["10.0.0.1"]⟩, ⟨"b.example", ["10.0.0.1"]⟩]).2.2
      ⟨"b.example", ["10.0.0.1"]⟩ (by decide) "10.0.0.1" (by decide) 80 (by decide)⟩

end Dipscan
